import Mathlib

/-!
Verification development for the Fabricates/Parser repository.

The repository converts an XML document into a generic value tree that holds,
at once, a nested map representation and a flattened path representation.
The Go implementation of the converter (parseXMLToGeneric) and of the query
helpers (XMLHelper) is not present among the repository sources here; only
their tests and callers are.  Those parts are therefore modelled from the
specification, faithfully to its wording, and checked against the
expectations recorded in the repository tests (xml_parser_test.go).
The request extraction logic (RereadableRequest.Extract) is present in
request.go and is embedded from that source.

Machine integers play no role; all data is strings, lists and maps.
Stateful code (the shared flattened map that the converter threads through
the recursion) is embedded by having each recursive activation return the
ordered sequence of promote writes it performs; the shared map is the fold
of the promote operation over that sequence, which reproduces the mutation
order exactly.
-/

set_option maxRecDepth 100000

namespace ParserSpec

/-- Value is the tagged union Scalar | List | Map of the data model. -/
inductive Value where
  | scalar : String → Value
  | list : List Value → Value
  | map : List (String × Value) → Value

/-- The map representation: association list with unique keys, in insertion
order (the Go map is unordered; insertion order is a harmless refinement). -/
abbrev VMap := List (String × Value)

/-- Assoc-list lookup, first match. -/
def lookupV : VMap → String → Option Value
  | [], _ => none
  | (k', v) :: t, k => if k' = k then some v else lookupV t k

/-- Assoc-list assignment: replace the binding of the key, or append it. -/
def setKey : VMap → String → Value → VMap
  | [], k, v => [(k, v)]
  | (k', w) :: t, k, v => if k' = k then (k, v) :: t else (k', w) :: setKey t k v

/-- The promote helper: the first write of a key stores the bare value, the
second turns the entry into a two-element List, later writes append. -/
def promote (m : VMap) (k : String) (v : Value) : VMap :=
  match lookupV m k with
  | none => m ++ [(k, v)]
  | some (Value.list xs) => setKey m k (Value.list (xs ++ [v]))
  | some w => setKey m k (Value.list [w, v])

/-- Apply a sequence of promote writes in order. -/
def promoteAll (m : VMap) (ws : List (String × Value)) : VMap :=
  ws.foldl (fun acc p => promote acc p.1 p.2) m

/-- The values held by an entry: the elements of a List, else the value. -/
def valsOf : Value → List Value
  | Value.list xs => xs
  | w => [w]

/-- The sub-sequence of values a write sequence sends to one key. -/
def keyVals (ws : List (String × Value)) (k : String) : List Value :=
  (ws.filter (fun p => p.1 = k)).map (fun p => p.2)

/-- One promote step seen from a single key. -/
def pstep (cur : Option Value) (v : Value) : Option Value :=
  match cur with
  | none => some v
  | some (Value.list xs) => some (Value.list (xs ++ [v]))
  | some w => some (Value.list [w, v])

/-- Folding promote steps over the values a key receives. -/
def pfold (cur : Option Value) (vs : List Value) : Option Value :=
  vs.foldl pstep cur

/-- True exactly on the List variant. -/
def Value.isList : Value → Bool
  | Value.list _ => true
  | _ => false

/-! ### Character utilities (the converter trims input and text chunks) -/

/-- Whitespace as the tokenizer and trimming see it. -/
def isWsChar (c : Char) : Bool :=
  c == ' ' || c == '\t' || c == '\n' || c == '\r'

/-- Drop leading whitespace. -/
def dropWs (cs : List Char) : List Char :=
  cs.dropWhile isWsChar

/-- Trim whitespace at both ends. -/
def trimChars (cs : List Char) : List Char :=
  dropWs ((dropWs cs.reverse).reverse)

/-- String trim used by the text accumulator. -/
def strTrim (s : String) : String :=
  ⟨trimChars s.data⟩

/-- Does the first list occur as a leading segment of the second. -/
def startsList : List Char → List Char → Bool
  | [], _ => true
  | _ :: _, [] => false
  | a :: as1, b :: bs1 => a == b && startsList as1 bs1

/-- Substring occurrence on character lists. -/
def charsHas (needle : List Char) : List Char → Bool
  | [] => startsList needle []
  | c :: t => startsList needle (c :: t) || charsHas needle t

/-- Substring occurrence on strings (models strings.Contains). -/
def strHas (needle hay : String) : Bool :=
  charsHas needle.data hay.data

/-! ### Tokenizer

Modelled from the spec: the XML tokenizer/pull parser is an external
collaborator of this core (spec section 6); its Go implementation is not
among the sources.  It yields StartElement (name, ordered attributes, with
a self-closing marker), CharData, EndElement, Misc (prolog, comments,
processing instructions), end of stream, or an error; names are local names
with any namespace prefix stripped; a mismatched end tag, an unterminated
construct, and an invalid byte (NUL) are tokenizer errors.  The mismatched
end tag check is performed where the element builder pulls the end token,
which is where the Go pull parser reports it. -/

inductive Token where
  | startTag : String → List (String × String) → Bool → Token
  | endTag : String → Token
  | charData : String → Token
  | misc : Token

inductive TokErr where
  | unexpectedEOF : TokErr
  | mismatchedEndTag : String → String → TokErr
  | invalidChar : TokErr
  | badTag : TokErr
  | fuelOut : TokErr
deriving DecidableEq

/-- Keep only the part of a name after the last colon (local names only). -/
def localName (cs : List Char) : String :=
  ⟨cs.foldl (fun acc c => if c == ':' then [] else acc ++ [c]) []⟩

/-- Characters that end a tag or attribute name. -/
def nameStop (c : Char) : Bool :=
  isWsChar c || c == '>' || c == '/' || c == '='

/-- Read a name: the longest run of non-stop characters. -/
def takeName (cs : List Char) : List Char × List Char :=
  cs.span (fun c => !(nameStop c))

/-- Parse the attribute list of a start tag, up to the closing bracket;
returns the attributes in encounter order and the self-closing marker. -/
def parseAttrs : Nat → List Char → Except TokErr (List (String × String) × Bool × List Char)
  | 0, _ => .error .fuelOut
  | fuel + 1, cs =>
    match dropWs cs with
    | [] => .error .unexpectedEOF
    | '>' :: r => .ok ([], false, r)
    | '/' :: r =>
      match r with
      | '>' :: r2 => .ok ([], true, r2)
      | _ => .error .badTag
    | c :: r =>
      match takeName (c :: r) with
      | (an, r1) =>
        if an.isEmpty then .error .badTag
        else
          match dropWs r1 with
          | '=' :: r2 =>
            match dropWs r2 with
            | '"' :: r3 =>
              match r3.span (fun ch => !(ch == '"')) with
              | (av, r4) =>
                match r4 with
                | '"' :: r5 =>
                  (parseAttrs fuel r5).map
                    (fun p => ((localName an, (⟨av⟩ : String)) :: p.1, p.2.1, p.2.2))
                | _ => .error .unexpectedEOF
            | _ => .error .badTag
          | _ => .error .badTag

/-- Pull one token from the input; returns none at end of stream. -/
def nextToken (cs : List Char) : Except TokErr (Option (Token × List Char)) :=
  match cs with
  | [] => .ok none
  | '<' :: rest =>
    match rest with
    | '/' :: r2 =>
      match r2.span (fun ch => !(ch == '>')) with
      | (nm, r3) =>
        match r3 with
        | '>' :: r4 => .ok (some (.endTag (localName (trimChars nm)), r4))
        | _ => .error .unexpectedEOF
    | '?' :: r2 =>
      match r2.span (fun ch => !(ch == '>')) with
      | (_, r3) =>
        match r3 with
        | '>' :: r4 => .ok (some (.misc, r4))
        | _ => .error .unexpectedEOF
    | '!' :: r2 =>
      match r2.span (fun ch => !(ch == '>')) with
      | (_, r3) =>
        match r3 with
        | '>' :: r4 => .ok (some (.misc, r4))
        | _ => .error .unexpectedEOF
    | _ =>
      match takeName rest with
      | (nm, r1) =>
        if nm.isEmpty then .error .badTag
        else
          (parseAttrs (r1.length + 1) r1).map
            (fun p => some (.startTag (localName nm) p.1 p.2.1, p.2.2))
  | _ =>
    match cs.span (fun ch => !(ch == '<')) with
    | (txt, rest) =>
      if txt.contains (Char.ofNat 0) then .error .invalidChar
      else .ok (some (.charData ⟨txt⟩, rest))

/-! ### The element builder

Modelled from the spec (section 4.1): one activation per element; the
activation records the attribute writes, the content seen until the
matching end tag, and the finalization writes.  `BuildOut` carries, for one
element: its name, its start-tag attributes, the value the parent stores
for it (its text if it is a text-only leaf, else its own map), its own map,
and the ordered promote writes it contributes to the shared flattened map.
The spec root-only finalization would promote the root attributes a second
time; the repository tests (TestXMLParserWithAttributes) show root
attributes holding a bare scalar after one write, so each attribute is
written exactly once, at the activation of its element. -/

structure BuildOut where
  name : String
  attrs : List (String × String)
  resolved : Value
  own : VMap
  flatW : List (String × Value)

/-- One piece of element content: a child element or a raw text chunk. -/
inductive Item where
  | child : BuildOut → Item
  | chunk : String → Item

/-- The child elements of a content list, in document order. -/
def childItems (items : List Item) : List BuildOut :=
  items.filterMap (fun i => match i with | .child b => some b | .chunk _ => none)

/-- The raw CharData chunks of a content list, in document order. -/
def chunkItems (items : List Item) : List String :=
  items.filterMap (fun i => match i with | .chunk s => some s | .child _ => none)

/-- Text accumulation: trim each chunk, skip the empty ones, join the rest
with a single space separator (spec section 4.1 step 4). -/
def accumText (chunks : List String) : String :=
  chunks.foldl
    (fun acc c =>
      let t := strTrim c
      if t == "" then acc else if acc == "" then t else acc ++ " " ++ t) ""

/-- The own-map promote writes one child contributes to its parent: first
the child attributes under childName/attrName, then the child value under
childName (spec section 4.1 step 4). -/
def childOwnWrites (b : BuildOut) : List (String × Value) :=
  (b.attrs.map (fun p => (b.name ++ "/" ++ p.1, Value.scalar p.2))) ++ [(b.name, b.resolved)]

/-- All own-map promote writes of one activation, in document order. -/
def ownWrites (items : List Item) : List (String × Value) :=
  (childItems items).flatMap childOwnWrites

/-- Finalization of one element (spec section 4.1 steps 2 and 5): build the
own map from the child writes, add the self-name key for a text leaf or the
underscore-text key for mixed content, resolve the element value, and lay
out the flattened-map writes: own attributes first, then the descendants
in document order, then the element path itself. -/
def finalizeElem (name : String) (attrs : List (String × String)) (path : String)
    (items : List Item) : BuildOut :=
  let children := childItems items
  let text := accumText (chunkItems items)
  let base := promoteAll [] (ownWrites items)
  let own :=
    if children.isEmpty then
      (if text == "" then base else setKey base name (Value.scalar text))
    else
      (if text == "" then base else setKey base "_text" (Value.scalar text))
  let resolved := if children.isEmpty then Value.scalar text else Value.map own
  { name := name
    attrs := attrs
    resolved := resolved
    own := own
    flatW := attrs.map (fun p => (path ++ "/" ++ p.1, Value.scalar p.2))
      ++ items.flatMap (fun i => match i with | .child b => b.flatW | .chunk _ => [])
      ++ [(path, resolved)] }

mutual

/-- Pull tokens until the matching end tag, collecting content items; a
child start recurses into the element builder; a mismatched end tag is the
tokenizer error the Go pull parser reports there; other tokens are ignored. -/
def childLoop : Nat → String → String → List Char → Except TokErr (List Item × List Char)
  | 0, _, _, _ => .error .fuelOut
  | fuel + 1, curName, path, cs =>
    match nextToken cs with
    | .error e => .error e
    | .ok none => .error .unexpectedEOF
    | .ok (some (t, rest)) =>
      match t with
      | .charData s => (childLoop fuel curName path rest).map (fun p => (.chunk s :: p.1, p.2))
      | .misc => childLoop fuel curName path rest
      | .endTag n =>
        if n = curName then .ok ([], rest) else .error (.mismatchedEndTag curName n)
      | .startTag n a sc =>
        match buildElement fuel n a sc (path ++ "/" ++ n) rest with
        | .error e => .error e
        | .ok (b, rest2) =>
          (childLoop fuel curName path rest2).map (fun p => (.child b :: p.1, p.2))

/-- One activation of the recursive element builder (spec section 4.1). -/
def buildElement : Nat → String → List (String × String) → Bool → String → List Char →
    Except TokErr (BuildOut × List Char)
  | _, name, attrs, true, path, cs => .ok (finalizeElem name attrs path [], cs)
  | 0, _, _, false, _, _ => .error .fuelOut
  | fuel + 1, name, attrs, false, path, cs =>
    match childLoop fuel name path cs with
    | .error e => .error e
    | .ok (items, rest) => .ok (finalizeElem name attrs path items, rest)

end

/-- Skip tokens until the first element start (spec section 4.1): returns
the start data, none when the stream ends first, or the tokenizer error. -/
def rootSeek : Nat → List Char →
    Except TokErr (Option (String × List (String × String) × Bool × List Char))
  | 0, _ => .error .fuelOut
  | fuel + 1, cs =>
    match nextToken cs with
    | .error e => .error e
    | .ok none => .ok none
    | .ok (some (.startTag n a sc, rest)) => .ok (some (n, a, sc, rest))
    | .ok (some (_, rest)) => rootSeek fuel rest

/-- Errors of the converter (spec section 4.1): the malformed case carries
the tokenizer error as its cause. -/
inductive ConvError where
  | emptyDocument : ConvError
  | noRootElement : ConvError
  | malformedDocument : TokErr → ConvError
deriving DecidableEq

/-- Locate the root and run the element builder on it; tokens after the
matching root end tag are ignored, not validated. -/
def parseCore (cs : List Char) : Except TokErr (Option BuildOut) :=
  match rootSeek (cs.length + 1) cs with
  | .error e => .error e
  | .ok none => .ok none
  | .ok (some (n, a, sc, rest)) =>
    match buildElement (2 * cs.length + 2) n a sc n rest with
    | .error e => .error e
    | .ok (b, _) => .ok (some b)

/-- Root finalization: the shared flattened map is the fold of all promote
writes, and the key of the root name is then assigned the root own map. -/
def assemble (b : BuildOut) : VMap :=
  setKey (promoteAll [] b.flatW) b.name (Value.map b.own)

/-- Modelled from the spec: the converter parseXMLToGeneric, whose Go
implementation is not among the repository sources (only its tests and
callers are).  Trims the input; empty input fails with EmptyDocument; a
stream with no element start fails with NoRootElement; a tokenizer error
propagates as MalformedDocument; otherwise the result combines the
flattened map with the nested root map (spec sections 4.1 and 3). -/
def parseXMLToGeneric (s : String) : Except ConvError VMap :=
  let cs := trimChars s.data
  if cs.isEmpty then .error .emptyDocument
  else
    match parseCore cs with
    | .error e => .error (.malformedDocument e)
    | .ok none => .error .noRootElement
    | .ok (some b) => .ok (assemble b)

/-! ### Query API

Modelled from the spec (section 4.2): the XMLHelper accessor functions, all
total, degrading to an empty default on a missing key or a value of an
unexpected shape.  Their Go implementation is not among the repository
sources; the behaviors follow the spec table and the repository tests. -/

/-- The string content of a Scalar. -/
def asScalar : Value → Option String
  | Value.scalar s => some s
  | _ => none

/-- First value at path/attr as a string; empty on absence or mismatch. -/
def GetXMLAttribute (m : VMap) (path attr : String) : String :=
  match lookupV m (path ++ "/" ++ attr) with
  | some (Value.scalar s) => s
  | some (Value.list (Value.scalar s :: _)) => s
  | _ => ""

/-- All values at path/attr as a string list; empty on absence. -/
def GetXMLAttributeArray (m : VMap) (path attr : String) : List String :=
  match lookupV m (path ++ "/" ++ attr) with
  | none => []
  | some (Value.scalar s) => [s]
  | some (Value.list vs) => vs.filterMap asScalar
  | some (Value.map _) => []

/-- Value at a path as a string, a List giving its first element; empty on
absence or a non-scalar shape. -/
def GetXMLValue (m : VMap) (path : String) : String :=
  match lookupV m path with
  | some (Value.scalar s) => s
  | some (Value.list (Value.scalar s :: _)) => s
  | _ => ""

/-- Value at a path as a list: a List gives its elements, a present value a
singleton, absence the empty list. -/
def GetXMLValueArray (m : VMap) (path : String) : List Value :=
  match lookupV m path with
  | none => []
  | some (Value.list vs) => vs
  | some v => [v]

/-- The value at a path when it is a Scalar, else the empty string. -/
def GetXMLText (m : VMap) (path : String) : String :=
  match lookupV m path with
  | some (Value.scalar s) => s
  | _ => ""

/-- The value list at a path filtered and coerced to strings. -/
def GetXMLTextArray (m : VMap) (path : String) : List String :=
  (GetXMLValueArray m path).filterMap asScalar

/-- Presence of the key path/attr. -/
def HasXMLAttribute (m : VMap) (path attr : String) : Bool :=
  (lookupV m (path ++ "/" ++ attr)).isSome

/-- Presence of the key path. -/
def HasXMLElement (m : VMap) (path : String) : Bool :=
  (lookupV m path).isSome

/-- Whether the value at a path is a List. -/
def IsXMLArray (m : VMap) (path : String) : Bool :=
  match lookupV m path with
  | some (Value.list _) => true
  | _ => false

/-- List length at a path; a present non-list counts one; absence zero. -/
def XMLArrayLength (m : VMap) (path : String) : Nat :=
  match lookupV m path with
  | none => 0
  | some (Value.list vs) => vs.length
  | some _ => 1

/-- Strip a leading segment from a character list. -/
def stripLead : List Char → List Char → Option (List Char)
  | [], s => some s
  | _ :: _, [] => none
  | a :: as1, b :: bs1 => if a = b then stripLead as1 bs1 else none

/-- Keys of the form path/X with no further slash in X, giving the X parts. -/
def ListXMLAttributes (m : VMap) (path : String) : List String :=
  m.filterMap (fun p =>
    match stripLead (path.data ++ ['/']) p.1.data with
    | some rest =>
      if rest.isEmpty || rest.contains '/' then none else some (⟨rest⟩ : String)
    | none => none)

/-- Top-level keys containing no slash. -/
def ListXMLElements (m : VMap) : List String :=
  m.filterMap (fun p => if p.1.data.contains '/' then none else some p.1)

/-! ### Request extraction (embedded from request.go)

RereadableRequest.Extract is embedded from the repository source.  The
parts Go delegates to its standard library (header access, form and query
parsing, JSON unmarshalling) enter the model as explicit inputs: the
request state carries their outcomes, and the JSON parser is a parameter.
The XML parser is the parseXMLToGeneric of this file, as in the source. -/

/-- The XML content types recognized by Extract (request.go). -/
def xmlContentTypes : List String :=
  ["text/xml", "application/xml", "application/soap+xml"]

/-- The fields of RequestData the model tracks (request.go). -/
structure RequestData where
  headers : List (String × List String)
  query : List (String × List String)
  form : List (String × List String)
  body : String
  bodyJSON : Option VMap
  bodyXML : Option VMap

/-- The request state Extract reads: headers, the raw query with the result
of url.ParseQuery (none on error), the possibly already parsed form, the
outcomes of ParseForm and ParseMultipartForm were they invoked, and the
buffered body. -/
structure ReqState where
  headers : List (String × List String)
  rawQuery : String
  queryParsed : Option (List (String × List String))
  form : Option (List (String × List String))
  parseFormResult : Except String (List (String × List String))
  parseMultipartResult : Except String (List (String × List String))
  body : String

/-- Lowercase a string character-wise (models strings.ToLower). -/
def strLower (s : String) : String :=
  ⟨s.data.map Char.toLower⟩

/-- First value of a header, or the empty string (http.Header.Get). -/
def headerGet (hs : List (String × List String)) (k : String) : String :=
  match hs.find? (fun p => p.1 == k) with
  | some (_, v :: _) => v
  | _ => ""

/-- RereadableRequest.Extract from request.go: parse the form only for form
content types, collect query, headers and form maps, then parse the body as
JSON or XML by content type; a body parse failure is logged, leaves the
corresponding field nil and does not fail the extraction. -/
def Extract (jsonParse : String → Option VMap) (r : ReqState) :
    Except String RequestData :=
  let ct0 := headerGet r.headers "Content-Type"
  let formStep : Except String (Option (List (String × List String))) :=
    match r.form with
    | some f => .ok (some f)
    | none =>
      if strHas "application/x-www-form-urlencoded" ct0 then
        r.parseFormResult.map some
      else if strHas "multipart/form-data" ct0 then
        r.parseMultipartResult.map some
      else .ok none
  match formStep with
  | .error e => .error e
  | .ok formOpt =>
    let query := if r.rawQuery = "" then [] else (match r.queryParsed with
      | some q => q
      | none => [])
    let form := match formOpt with
      | some f => f
      | none => []
    let ct := strLower ct0
    let bodyPair : Option VMap × Option VMap :=
      if strHas "application/json" ct && !(r.body == "") then
        (jsonParse r.body, none)
      else if !(r.body == "") && xmlContentTypes.any (fun c => strHas c ct) then
        (none, (parseXMLToGeneric r.body).toOption)
      else (none, none)
    .ok { headers := r.headers, query := query, form := form, body := r.body,
          bodyJSON := bodyPair.1, bodyXML := bodyPair.2 }

/-! ### Association list and promotion lemmas -/

theorem lookup_setKey_self (m : VMap) (k : String) (v : Value) :
    lookupV (setKey m k v) k = some v := by
  induction m with
  | nil => simp [setKey, lookupV]
  | cons p t ih =>
    obtain ⟨k1, w⟩ := p
    by_cases h : k1 = k
    · simp [setKey, h, lookupV]
    · simp [setKey, h, lookupV, ih]

theorem lookup_setKey_ne (m : VMap) (k1 : String) (v : Value) (k : String)
    (h : k1 ≠ k) : lookupV (setKey m k1 v) k = lookupV m k := by
  induction m with
  | nil => simp [setKey, lookupV, h]
  | cons p t ih =>
    obtain ⟨k2, w⟩ := p
    by_cases h2 : k2 = k1
    · subst h2; simp [setKey, lookupV, h]
    · simp [setKey, h2, lookupV, ih]

theorem lookup_append (m m2 : VMap) (k : String) :
    lookupV (m ++ m2) k
      = match lookupV m k with
        | some v => some v
        | none => lookupV m2 k := by
  induction m with
  | nil => simp [lookupV]
  | cons p t ih =>
    obtain ⟨k1, w⟩ := p
    by_cases h : k1 = k
    · simp [lookupV, h]
    · simp [lookupV, h, ih]

theorem promote_lookup_self (m : VMap) (k : String) (v : Value) :
    lookupV (promote m k v) k = pstep (lookupV m k) v := by
  unfold promote pstep
  cases h : lookupV m k with
  | none => rw [lookup_append, h]; simp [lookupV]
  | some w => cases w <;> simp [lookup_setKey_self]

theorem promote_lookup_ne (m : VMap) (k1 : String) (v : Value) (k : String)
    (h : k1 ≠ k) : lookupV (promote m k1 v) k = lookupV m k := by
  unfold promote
  cases hl : lookupV m k1 with
  | none =>
    rw [lookup_append]
    cases h2 : lookupV m k with
    | none => simp [lookupV, h]
    | some w => simp
  | some w => cases w <;> rw [lookup_setKey_ne _ _ _ _ h]

theorem keyVals_cons (k1 : String) (v1 : Value) (t : List (String × Value)) (k : String) :
    keyVals ((k1, v1) :: t) k = if k1 = k then v1 :: keyVals t k else keyVals t k := by
  by_cases h : k1 = k <;> simp [keyVals, List.filter_cons, h]

theorem keyVals_append (a b : List (String × Value)) (k : String) :
    keyVals (a ++ b) k = keyVals a k ++ keyVals b k := by
  simp [keyVals, List.filter_append]

theorem pfold_cons (cur : Option Value) (v : Value) (vs : List Value) :
    pfold cur (v :: vs) = pfold (pstep cur v) vs := rfl

theorem lookup_promoteAll (ws : List (String × Value)) (m : VMap) (k : String) :
    lookupV (promoteAll m ws) k = pfold (lookupV m k) (keyVals ws k) := by
  induction ws generalizing m with
  | nil => simp [promoteAll, pfold, keyVals]
  | cons p t ih =>
    obtain ⟨k1, v1⟩ := p
    show lookupV (promoteAll (promote m k1 v1) t) k = _
    rw [ih, keyVals_cons]
    by_cases h : k1 = k
    · subst h; rw [promote_lookup_self]; simp [pfold_cons]
    · rw [promote_lookup_ne _ _ _ _ h]; simp [h]

theorem pfold_some_list (xs vs : List Value) :
    pfold (some (Value.list xs)) vs = some (Value.list (xs ++ vs)) := by
  induction vs generalizing xs with
  | nil => simp [pfold]
  | cons v t ih =>
    rw [pfold_cons]
    show pfold (some (Value.list (xs ++ [v]))) t = _
    rw [ih]
    simp

theorem valsOf_of_not_list (v : Value) (hv : v.isList = false) : valsOf v = [v] := by
  cases v <;> simp [valsOf, Value.isList] at hv ⊢

theorem pfold_none_two (v0 v1 : Value) (rest : List Value) :
    pfold none (v0 :: v1 :: rest) = some (Value.list (valsOf v0 ++ v1 :: rest)) := by
  rw [pfold_cons]
  show pfold (some v0) (v1 :: rest) = _
  cases v0 with
  | list xs => rw [pfold_cons]; show pfold (some (Value.list (xs ++ [v1]))) rest = _; rw [pfold_some_list]; simp [valsOf]
  | scalar s => rw [pfold_cons]; show pfold (some (Value.list [Value.scalar s, v1])) rest = _; rw [pfold_some_list]; simp [valsOf]
  | map mm => rw [pfold_cons]; show pfold (some (Value.list [Value.map mm, v1])) rest = _; rw [pfold_some_list]; simp [valsOf]

theorem pfold_mem (vs : List Value) (v : Value) (hv : v.isList = false)
    (h : v ∈ vs) : ∃ w, pfold none vs = some w ∧ v ∈ valsOf w := by
  match vs with
  | [] => cases h
  | [v0] =>
    rcases List.mem_singleton.mp h with rfl
    exact ⟨v, rfl, by rw [valsOf_of_not_list v hv]; exact List.mem_singleton.mpr rfl⟩
  | v0 :: v1 :: rest =>
    refine ⟨Value.list (valsOf v0 ++ v1 :: rest), pfold_none_two v0 v1 rest, ?_⟩
    rcases List.mem_cons.mp h with rfl | h2
    · exact List.mem_append.mpr (Or.inl (by rw [valsOf_of_not_list v hv]; exact List.mem_singleton.mpr rfl))
    · exact List.mem_append.mpr (Or.inr h2)

/-! ### String key lemmas: a slash-joined key never equals a slash-free key -/

theorem slash_mem_joined (x y : String) : ('/' : Char) ∈ (x ++ "/" ++ y).data := by
  rw [String.data_append, String.data_append]
  exact List.mem_append.mpr (Or.inl (List.mem_append.mpr (Or.inr (by simp [String.data]))))

theorem joined_ne_of_no_slash (x y t : String) (h : ('/' : Char) ∉ t.data) :
    x ++ "/" ++ y ≠ t := by
  intro he
  exact h (he ▸ slash_mem_joined x y)

/-! ### The own map writes, per key -/

theorem keyVals_attrWrites (attrs : List (String × String)) (nm T : String)
    (hT : ('/' : Char) ∉ T.data) :
    keyVals (attrs.map (fun p => (nm ++ "/" ++ p.1, Value.scalar p.2))) T = [] := by
  induction attrs with
  | nil => simp [keyVals]
  | cons a t ih =>
    simp only [List.map_cons]
    rw [keyVals_cons, if_neg (joined_ne_of_no_slash nm a.1 T hT), ih]

theorem keyVals_childOwnWrites (b : BuildOut) (T : String)
    (hT : ('/' : Char) ∉ T.data) :
    keyVals (childOwnWrites b) T = if b.name = T then [b.resolved] else [] := by
  unfold childOwnWrites
  rw [keyVals_append, keyVals_attrWrites _ _ _ hT, keyVals_cons]
  by_cases h : b.name = T <;> simp [h, keyVals]

theorem keyVals_flatMapChildren (l : List BuildOut) (T : String)
    (hT : ('/' : Char) ∉ T.data) :
    keyVals (l.flatMap childOwnWrites) T
      = (l.filter (fun b => b.name = T)).map (fun b => b.resolved) := by
  induction l with
  | nil => simp [keyVals]
  | cons b t ih =>
    rw [List.flatMap_cons, keyVals_append, keyVals_childOwnWrites _ _ hT, ih]
    by_cases h : b.name = T <;> simp [List.filter_cons, h]

theorem keyVals_ownWrites (items : List Item) (T : String)
    (hT : ('/' : Char) ∉ T.data) :
    keyVals (ownWrites items) T
      = ((childItems items).filter (fun b => b.name = T)).map (fun b => b.resolved) := by
  unfold ownWrites
  exact keyVals_flatMapChildren _ _ hT

/-! ### Text accumulation lemmas -/

/-- Space-joined concatenation of a list of strings. -/
def joinSp : List String → String
  | [] => ""
  | [x] => x
  | x :: y :: xs => x ++ " " ++ joinSp (y :: xs)

/-- Trim each chunk and keep the non-whitespace-only ones. -/
def trimmedChunks (chunks : List String) : List String :=
  (chunks.map strTrim).filter (fun t => !(t == ""))

theorem trimmedChunks_cons (c : String) (rest : List String) :
    trimmedChunks (c :: rest)
      = if strTrim c == "" then trimmedChunks rest
        else strTrim c :: trimmedChunks rest := by
  by_cases h : strTrim c = "" <;> simp [trimmedChunks, List.filter_cons, h]

theorem joined_ne_empty (x y : String) : x ++ " " ++ y ≠ "" := by
  intro h
  have hm : (' ' : Char) ∈ (x ++ " " ++ y).data := by
    rw [String.data_append, String.data_append]
    exact List.mem_append.mpr (Or.inl (List.mem_append.mpr (Or.inr (by simp [String.data]))))
  rw [h] at hm
  exact List.not_mem_nil _ hm

theorem joinSp_join_cons (a t : String) (l : List String) :
    joinSp ((a ++ " " ++ t) :: l) = a ++ " " ++ joinSp (t :: l) := by
  cases l with
  | nil => rfl
  | cons x xs =>
    show (a ++ " " ++ t) ++ " " ++ joinSp (x :: xs) = a ++ " " ++ (t ++ " " ++ joinSp (x :: xs))
    apply String.ext
    simp [String.data_append, List.append_assoc]

theorem accumText_general (chunks : List String) (acc : String) :
    chunks.foldl
      (fun acc c =>
        let t := strTrim c
        if t == "" then acc else if acc == "" then t else acc ++ " " ++ t) acc
      = (if acc == "" then joinSp (trimmedChunks chunks)
         else joinSp (acc :: trimmedChunks chunks)) := by
  induction chunks generalizing acc with
  | nil =>
    by_cases h : acc = "" <;> simp [h, trimmedChunks, joinSp]
  | cons c rest ih =>
    simp only [List.foldl_cons]
    by_cases h : strTrim c = ""
    · rw [show (let t := strTrim c;
          if t == "" then acc else if acc == "" then t else acc ++ " " ++ t) = acc by
            simp [h]]
      rw [ih, trimmedChunks_cons]
      simp [h]
    · by_cases ha : acc = ""
      · rw [show (let t := strTrim c;
            if t == "" then acc else if acc == "" then t else acc ++ " " ++ t) = strTrim c by
              simp [h, ha]]
        rw [ih, trimmedChunks_cons]
        simp [h, ha]
      · rw [show (let t := strTrim c;
            if t == "" then acc else if acc == "" then t else acc ++ " " ++ t)
              = acc ++ " " ++ strTrim c by simp [h, ha]]
        rw [ih, trimmedChunks_cons]
        rw [if_neg (show ¬(((acc ++ " " ++ strTrim c) == "") = true) by
          simp [joined_ne_empty acc (strTrim c)])]
        rw [if_neg (show ¬((acc == "") = true) by simp [ha])]
        rw [if_neg (show ¬((strTrim c == "") = true) by simp [h])]
        rw [joinSp_join_cons]
        rfl

theorem accumText_eq (chunks : List String) :
    accumText chunks = joinSp (trimmedChunks chunks) := by
  unfold accumText
  rw [accumText_general]
  simp

/-! ### Finalization lemmas -/

theorem finalize_resolved_not_list (name : String) (attrs : List (String × String))
    (path : String) (items : List Item) :
    (finalizeElem name attrs path items).resolved.isList = false := by
  unfold finalizeElem
  by_cases h : (childItems items).isEmpty <;> simp [h, Value.isList]

theorem finalize_own_attrs_independent (name : String) (a1 a2 : List (String × String))
    (path : String) (items : List Item) :
    (finalizeElem name a1 path items).own = (finalizeElem name a2 path items).own := rfl

theorem finalize_resolved_attrs_independent (name : String) (a1 a2 : List (String × String))
    (path : String) (items : List Item) :
    (finalizeElem name a1 path items).resolved = (finalizeElem name a2 path items).resolved := rfl

theorem finalize_own_def (name : String) (attrs : List (String × String))
    (path : String) (items : List Item) :
    (finalizeElem name attrs path items).own
      = (if (childItems items).isEmpty then
           (if accumText (chunkItems items) == "" then promoteAll [] (ownWrites items)
            else setKey (promoteAll [] (ownWrites items)) name
              (Value.scalar (accumText (chunkItems items))))
         else
           (if accumText (chunkItems items) == "" then promoteAll [] (ownWrites items)
            else setKey (promoteAll [] (ownWrites items)) "_text"
              (Value.scalar (accumText (chunkItems items))))) := rfl

theorem finalize_own_lookup (name : String) (attrs : List (String × String))
    (path : String) (items : List Item) (T : String)
    (hT : ('/' : Char) ∉ T.data) (hTt : T ≠ "_text") (hch : childItems items ≠ []) :
    lookupV (finalizeElem name attrs path items).own T
      = pfold none
          (((childItems items).filter (fun b => b.name = T)).map (fun b => b.resolved)) := by
  have hne : (childItems items).isEmpty = false := by
    cases h : childItems items with
    | nil => exact absurd h hch
    | cons a t => rfl
  have hbase : lookupV (promoteAll [] (ownWrites items)) T
      = pfold none
          (((childItems items).filter (fun b => b.name = T)).map (fun b => b.resolved)) := by
    rw [lookup_promoteAll, keyVals_ownWrites _ _ hT]
    rfl
  rw [finalize_own_def, if_neg (show ¬((childItems items).isEmpty = true) by simp [hne])]
  by_cases ht : accumText (chunkItems items) = ""
  · rw [if_pos (show ((accumText (chunkItems items) == "") = true) by simp [ht])]
    exact hbase
  · rw [if_neg (show ¬((accumText (chunkItems items) == "") = true) by simp [ht])]
    rw [lookup_setKey_ne _ _ _ _ (fun he => hTt he.symm)]
    exact hbase

theorem mem_keyVals (ws : List (String × Value)) (k : String) (v : Value)
    (h : (k, v) ∈ ws) : v ∈ keyVals ws k :=
  List.mem_map.mpr ⟨(k, v), List.mem_filter.mpr ⟨h, by simp⟩, rfl⟩

theorem finalize_flatW_attr_mem (name : String) (attrs : List (String × String))
    (path : String) (items : List Item) (a v : String) (h : (a, v) ∈ attrs) :
    (path ++ "/" ++ a, Value.scalar v) ∈ (finalizeElem name attrs path items).flatW := by
  unfold finalizeElem
  exact List.mem_append.mpr (Or.inl (List.mem_append.mpr (Or.inl
    (List.mem_map.mpr ⟨(a, v), h, rfl⟩))))

theorem finalize_own_child_attr (name : String) (attrs : List (String × String))
    (path : String) (items : List Item) (b : BuildOut) (a v : String)
    (hb : b ∈ childItems items) (ha : (a, v) ∈ b.attrs) :
    ∃ w, lookupV (finalizeElem name attrs path items).own (b.name ++ "/" ++ a) = some w
      ∧ Value.scalar v ∈ valsOf w := by
  have hne : (childItems items).isEmpty = false := by
    cases h : childItems items with
    | nil => rw [h] at hb; cases hb
    | cons x t => rfl
  have hkeymem : (b.name ++ "/" ++ a, Value.scalar v) ∈ ownWrites items := by
    unfold ownWrites
    exact List.mem_flatMap.mpr ⟨b, hb, List.mem_append.mpr (Or.inl
      (List.mem_map.mpr ⟨(a, v), ha, rfl⟩))⟩
  have hvmem : Value.scalar v ∈ keyVals (ownWrites items) (b.name ++ "/" ++ a) :=
    mem_keyVals _ _ _ hkeymem
  have hbase : ∃ w,
      lookupV (promoteAll [] (ownWrites items)) (b.name ++ "/" ++ a) = some w
        ∧ Value.scalar v ∈ valsOf w := by
    rw [lookup_promoteAll]
    exact pfold_mem _ _ (by simp [Value.isList]) hvmem
  rw [finalize_own_def, if_neg (show ¬((childItems items).isEmpty = true) by simp [hne])]
  by_cases ht : accumText (chunkItems items) = ""
  · rw [if_pos (show ((accumText (chunkItems items) == "") = true) by simp [ht])]
    exact hbase
  · rw [if_neg (show ¬((accumText (chunkItems items) == "") = true) by simp [ht])]
    rw [lookup_setKey_ne _ _ _ _
      (fun he => absurd he.symm
        (joined_ne_of_no_slash b.name a "_text" (by decide)))]
    exact hbase

/-! ### Assembly lemmas -/

theorem assemble_lookup_root (b : BuildOut) :
    lookupV (assemble b) b.name = some (Value.map b.own) := by
  unfold assemble
  exact lookup_setKey_self _ _ _

theorem assemble_lookup_ne (b : BuildOut) (k : String) (h : k ≠ b.name) :
    lookupV (assemble b) k = pfold none (keyVals b.flatW k) := by
  unfold assemble
  rw [lookup_setKey_ne _ _ _ _ (fun he => h he.symm), lookup_promoteAll]
  rfl

/-! ### Converter-level lemmas -/

theorem parseXML_empty_iff (s : String) :
    parseXMLToGeneric s = .error .emptyDocument ↔ trimChars s.data = [] := by
  unfold parseXMLToGeneric
  by_cases h : (trimChars s.data).isEmpty = true
  · rw [if_pos h]
    simp [List.isEmpty_iff.mp h]
  · rw [if_neg h]
    have hne : ¬(trimChars s.data = []) := by
      intro hx
      exact h (by simp [hx])
    cases hp : parseCore (trimChars s.data) with
    | error e => simp [hne]
    | ok ob =>
      cases ob with
      | none => simp [hne]
      | some b => simp [hne]

theorem parseXML_malformed_of_core_error (s : String) (e : TokErr)
    (h : trimChars s.data ≠ []) (hc : parseCore (trimChars s.data) = .error e) :
    parseXMLToGeneric s = .error (.malformedDocument e) := by
  unfold parseXMLToGeneric
  rw [if_neg (by simp [h]), hc]

theorem parseXML_ok_inv (s : String) (m : VMap) (h : parseXMLToGeneric s = .ok m) :
    ∃ b, parseCore (trimChars s.data) = .ok (some b) ∧ m = assemble b := by
  unfold parseXMLToGeneric at h
  by_cases he : (trimChars s.data).isEmpty = true
  · rw [if_pos he] at h
    cases h
  · rw [if_neg he] at h
    cases hp : parseCore (trimChars s.data) with
    | error e2 => rw [hp] at h; cases h
    | ok ob =>
      cases ob with
      | none => rw [hp] at h; cases h
      | some b =>
        rw [hp] at h
        refine ⟨b, rfl, ?_⟩
        cases h
        rfl

theorem buildElement_attrs_independent (fuel : Nat) (name : String)
    (a1 a2 : List (String × String)) (sc : Bool) (path : String) (cs : List Char)
    (b : BuildOut) (rest : List Char)
    (h : buildElement fuel name a1 sc path cs = .ok (b, rest)) :
    ∃ bo, buildElement fuel name a2 sc path cs = .ok (bo, rest)
      ∧ bo.own = b.own ∧ bo.resolved = b.resolved := by
  cases sc with
  | true =>
    cases fuel with
    | zero =>
      simp only [buildElement] at h
      injection h with h1
      injection h1 with hb hr
      subst hb
      subst hr
      exact ⟨finalizeElem name a2 path [], rfl,
        finalize_own_attrs_independent name a2 a1 path [],
        finalize_resolved_attrs_independent name a2 a1 path []⟩
    | succ n =>
      simp only [buildElement] at h
      injection h with h1
      injection h1 with hb hr
      subst hb
      subst hr
      exact ⟨finalizeElem name a2 path [], rfl,
        finalize_own_attrs_independent name a2 a1 path [],
        finalize_resolved_attrs_independent name a2 a1 path []⟩
  | false =>
    cases fuel with
    | zero =>
      simp only [buildElement] at h
      exact Except.noConfusion h
    | succ n =>
      simp only [buildElement] at h ⊢
      cases hcl : childLoop n name path cs with
      | error e =>
        rw [hcl] at h
        exact Except.noConfusion h
      | ok pr =>
        obtain ⟨items, r⟩ := pr
        rw [hcl] at h
        have h2 : Except.ok (ε := TokErr) (finalizeElem name a1 path items, r)
            = Except.ok (b, rest) := h
        injection h2 with h1
        injection h1 with hb hr
        subst hb
        subst hr
        exact ⟨finalizeElem name a2 path items, rfl,
          finalize_own_attrs_independent name a2 a1 path items,
          finalize_resolved_attrs_independent name a2 a1 path items⟩

theorem filter_name_nil (l : List BuildOut) (T : String) (h : ∀ b ∈ l, b.name ≠ T) :
    l.filter (fun b => b.name = T) = [] := by
  induction l with
  | nil => rfl
  | cons b t ih =>
    rw [List.filter_cons, if_neg (by simp [h b (List.mem_cons_self b t)])]
    exact ih (fun x hx => h x (List.mem_cons_of_mem b hx))

/-! ### Concrete documents from the repository tests -/

/-- The leaf document of the leaf-text test. -/
def noteDoc : String := "<note>hi</note>"

/-- The converted tree of noteDoc. -/
def noteTree : VMap := [("note", Value.map [("note", Value.scalar "hi")])]

/-- The flattened-map promote writes recorded while converting noteDoc. -/
def noteFlatWrites : List (String × Value) :=
  match parseCore (trimChars noteDoc.data) with
  | .ok (some b) => b.flatW
  | _ => []

/-- The self-closing document of the edge-case test. -/
def imgDoc : String := "<img src=\"a.jpg\"/>"

/-- The converted tree of imgDoc. -/
def imgTree : VMap := [("img/src", Value.scalar "a.jpg"), ("img", Value.map [])]

/-- The duplicate-children document of the array-handling tests. -/
def itemsDoc : String :=
  "<items><item id=\"1\">First</item><item id=\"2\">Second</item><item id=\"3\">Third</item></items>"

/-- The converted tree of itemsDoc. -/
def itemsTree : VMap :=
  match parseXMLToGeneric itemsDoc with
  | .ok m => m
  | .error _ => []

/-- The attribute-rich document of TestXMLParserWithAttributes. -/
def userDoc : String :=
  "<user id=\"123\" name=\"John Doe\" active=\"true\"><email type=\"primary\">john@example.com</email><email type=\"secondary\">john.doe@work.com</email><profile><age>30</age><city>New York</city></profile></user>"

/-- The converted tree of userDoc. -/
def userTree : VMap :=
  match parseXMLToGeneric userDoc with
  | .ok m => m
  | .error _ => []

/-- The own map of the user root element within userTree. -/
def userOwn : VMap :=
  match lookupV userTree "user" with
  | some (Value.map om) => om
  | _ => []

/-- A mixed-content document whose first chunk carries a trailing space. -/
def mixedDoc : String := "<a>x <b/>y</a>"

/-- The converted tree of mixedDoc. -/
def mixedTree : VMap :=
  [("a/b", Value.scalar ""),
   ("a", Value.map [("b", Value.scalar ""), ("_text", Value.scalar "x y")])]

/-- The mixed-content document of the spec testable properties. -/
def mixedDoc2 : String := "<a>x<b/>y</a>"

/-- The own map of the a element within the converted mixedDoc2. -/
def mixedOwn2 : VMap :=
  match parseXMLToGeneric mixedDoc2 with
  | .ok m =>
    (match lookupV m "a" with
     | some (Value.map om) => om
     | _ => [])
  | .error _ => []

/-! ### Claim theorems -/

/-- C1, counterexample: the claim says every key written at least twice
during one parse holds a List of the written values.  Converting noteDoc
writes the flat key note twice: once by the promote write of the leaf text
(the single entry of noteFlatWrites) and once by the root finalization,
which assigns the root own map over it; the final entry is that Map, not a
two-element List. -/
theorem c1_counterexample :
    parseXMLToGeneric noteDoc = .ok noteTree
    ∧ noteFlatWrites = [("note", Value.scalar "hi")]
    ∧ lookupV noteTree "note" = some (Value.map [("note", Value.scalar "hi")])
    ∧ Value.isList (Value.map [("note", Value.scalar "hi")]) = false :=
  ⟨rfl, rfl, rfl, rfl⟩

/-- C1, amended: a key promote-written once holds the bare value and a key
promote-written N at least 2 times holds the List of the N values in
document order; the root-name key is excluded, since the root finalization
overwrites it with the root own map after the promote writes.  In detail:
the shared flattened map is the promote fold of the write sequence, whose
per-key outcome is the bare value for one write and the accumulated List
for two or more; every accepted document yields the assembly of a root
build whose non-root keys follow exactly that per-key fold; the own map of
any element maps a slash-free non-underscore-text child tag T to the
promote fold of the resolved values of its T-children in document order
(a k-length List when k is at least 2); and on the duplicate-children test
document the flattened keys items/item and items/item/id hold the
three-element Lists in document order. -/
theorem c1_promotion :
    (∀ (ws : List (String × Value)) (k : String),
      lookupV (promoteAll [] ws) k = pfold none (keyVals ws k))
    ∧ (∀ v : Value, pfold none [v] = some v)
    ∧ (∀ (v0 v1 : Value) (rest : List Value),
        pfold none (v0 :: v1 :: rest) = some (Value.list (valsOf v0 ++ v1 :: rest)))
    ∧ (∀ (s : String) (m : VMap), parseXMLToGeneric s = .ok m →
        ∃ b : BuildOut, parseCore (trimChars s.data) = .ok (some b) ∧ m = assemble b
          ∧ ∀ k : String, k ≠ b.name → lookupV m k = pfold none (keyVals b.flatW k))
    ∧ (∀ (name : String) (attrs : List (String × String)) (path : String)
        (items : List Item) (T : String),
        ('/' : Char) ∉ T.data → T ≠ "_text" → childItems items ≠ [] →
        lookupV (finalizeElem name attrs path items).own T
          = pfold none
              (((childItems items).filter (fun b => b.name = T)).map (fun b => b.resolved)))
    ∧ lookupV itemsTree "items/item"
        = some (Value.list [Value.scalar "First", Value.scalar "Second", Value.scalar "Third"])
    ∧ lookupV itemsTree "items/item/id"
        = some (Value.list [Value.scalar "1", Value.scalar "2", Value.scalar "3"]) := by
  refine ⟨?_, fun v => rfl, pfold_none_two, ?_, finalize_own_lookup, rfl, rfl⟩
  · intro ws k
    rw [lookup_promoteAll]
    rfl
  · intro s m h
    obtain ⟨b, hc, hm⟩ := parseXML_ok_inv s m h
    exact ⟨b, hc, hm, fun k hk => by rw [hm]; exact assemble_lookup_ne b k hk⟩

/-- C1, witness: the amended statement applied to the accepted document
noteDoc, and the own-map clause applied to a parent of two same-named
children. -/
theorem c1_witness :
    (∃ b : BuildOut, parseCore (trimChars noteDoc.data) = .ok (some b)
       ∧ noteTree = assemble b
       ∧ ∀ k : String, k ≠ b.name → lookupV noteTree k = pfold none (keyVals b.flatW k))
    ∧ lookupV (finalizeElem "p" [] "p"
        [Item.child (finalizeElem "c" [] "p/c" []),
         Item.child (finalizeElem "c" [] "p/c" [])]).own "c"
      = pfold none
          ((([finalizeElem "c" [] "p/c" [],
              finalizeElem "c" [] "p/c" []].filter (fun b => b.name = "c")).map
            (fun b => b.resolved))) :=
  ⟨c1_promotion.2.2.2.1 noteDoc noteTree rfl,
   c1_promotion.2.2.2.2.1 "p" [] "p"
     [Item.child (finalizeElem "c" [] "p/c" []), Item.child (finalizeElem "c" [] "p/c" [])]
     "c" (by decide) (by decide) (fun h => List.noConfusion h)⟩

/-- C2: attribute scope asymmetry.  For any element activation, each start
tag attribute (a, v) is promote-written to the shared flattened map at
elementPath/a (a member of the activation flat writes, and any written
pair survives into the promoted map); each attribute of a direct child is
present in this element own map under childName/attrName; and the own map
and resolved value of an element do not depend on its own attributes at
all, so its own attributes never appear inside its own nested map.  On the
attribute test document: the user attributes sit at the flattened keys and
are absent from the user own map, while the email attributes sit in the
user own map under email/type. -/
theorem c2_attribute_scope :
    (∀ (name : String) (attrs : List (String × String)) (path : String)
       (items : List Item) (a v : String), (a, v) ∈ attrs →
       (path ++ "/" ++ a, Value.scalar v) ∈ (finalizeElem name attrs path items).flatW)
    ∧ (∀ (ws : List (String × Value)) (k : String) (v : Value),
        (k, v) ∈ ws → Value.isList v = false →
        ∃ w, lookupV (promoteAll [] ws) k = some w ∧ v ∈ valsOf w)
    ∧ (∀ (name : String) (attrs : List (String × String)) (path : String)
        (items : List Item) (b : BuildOut) (a v : String),
        b ∈ childItems items → (a, v) ∈ b.attrs →
        ∃ w, lookupV (finalizeElem name attrs path items).own (b.name ++ "/" ++ a) = some w
          ∧ Value.scalar v ∈ valsOf w)
    ∧ (∀ (fuel : Nat) (name : String) (a1 a2 : List (String × String)) (sc : Bool)
        (path : String) (cs : List Char) (b : BuildOut) (rest : List Char),
        buildElement fuel name a1 sc path cs = .ok (b, rest) →
        ∃ bo, buildElement fuel name a2 sc path cs = .ok (bo, rest)
          ∧ bo.own = b.own ∧ bo.resolved = b.resolved)
    ∧ lookupV userTree "user" = some (Value.map userOwn)
    ∧ lookupV userTree "user/id" = some (Value.scalar "123")
    ∧ lookupV userTree "user/email/type"
        = some (Value.list [Value.scalar "primary", Value.scalar "secondary"])
    ∧ lookupV userOwn "id" = none
    ∧ lookupV userOwn "name" = none
    ∧ lookupV userOwn "active" = none
    ∧ lookupV userOwn "email/type"
        = some (Value.list [Value.scalar "primary", Value.scalar "secondary"]) := by
  refine ⟨finalize_flatW_attr_mem, ?_, finalize_own_child_attr,
    buildElement_attrs_independent, rfl, rfl, rfl, rfl, rfl, rfl, rfl⟩
  intro ws k v h hv
  rw [lookup_promoteAll]
  exact pfold_mem _ _ hv (mem_keyVals _ _ _ h)

/-- C2, witness: the flat-write clause and the parent own-map clause
applied to one concrete element carrying one attribute. -/
theorem c2_witness :
    ("p" ++ "/" ++ "a", Value.scalar "v")
      ∈ (finalizeElem "e" [("a", "v")] "p" []).flatW
    ∧ (∃ w, lookupV
        (finalizeElem "q" [] "q"
          [Item.child (finalizeElem "e" [("a", "v")] "q/e" [])]).own
        ((finalizeElem "e" [("a", "v")] "q/e" []).name ++ "/" ++ "a") = some w
        ∧ Value.scalar "v" ∈ valsOf w) :=
  ⟨c2_attribute_scope.1 "e" [("a", "v")] "p" [] "a" "v" (List.mem_singleton.mpr rfl),
   c2_attribute_scope.2.2.1 "q" [] "q"
     [Item.child (finalizeElem "e" [("a", "v")] "q/e" [])]
     (finalizeElem "e" [("a", "v")] "q/e" []) "a" "v"
     (List.mem_singleton.mpr rfl) (List.mem_singleton.mpr rfl)⟩

/-- C3: the query accessors are total functions that degrade to the empty
default of their result type on a missing key, and on a value of an
unexpected shape (a nested Map where a scalar or list is expected). -/
theorem c3_query_defaults :
    (∀ (m : VMap) (path attr : String), lookupV m (path ++ "/" ++ attr) = none →
       GetXMLAttribute m path attr = "" ∧ GetXMLAttributeArray m path attr = []
       ∧ HasXMLAttribute m path attr = false)
    ∧ (∀ (m : VMap) (path : String), lookupV m path = none →
       GetXMLValue m path = "" ∧ GetXMLValueArray m path = [] ∧ GetXMLText m path = ""
       ∧ GetXMLTextArray m path = [] ∧ HasXMLElement m path = false
       ∧ IsXMLArray m path = false ∧ XMLArrayLength m path = 0)
    ∧ (∀ (m : VMap) (path : String) (mm : VMap), lookupV m path = some (Value.map mm) →
       GetXMLValue m path = "" ∧ GetXMLText m path = "" ∧ GetXMLTextArray m path = []
       ∧ IsXMLArray m path = false ∧ XMLArrayLength m path = 1)
    ∧ (∀ (m : VMap) (path attr : String) (mm : VMap),
       lookupV m (path ++ "/" ++ attr) = some (Value.map mm) →
       GetXMLAttribute m path attr = "" ∧ GetXMLAttributeArray m path attr = [])
    ∧ ListXMLAttributes [] "p" = [] ∧ ListXMLElements [] = [] := by
  refine ⟨?_, ?_, ?_, ?_, rfl, rfl⟩
  · intro m path attr h
    exact ⟨by simp [GetXMLAttribute, h], by simp [GetXMLAttributeArray, h],
      by simp [HasXMLAttribute, h]⟩
  · intro m path h
    exact ⟨by simp [GetXMLValue, h], by simp [GetXMLValueArray, h],
      by simp [GetXMLText, h], by simp [GetXMLTextArray, GetXMLValueArray, h],
      by simp [HasXMLElement, h], by simp [IsXMLArray, h], by simp [XMLArrayLength, h]⟩
  · intro m path mm h
    exact ⟨by simp [GetXMLValue, h], by simp [GetXMLText, h],
      by simp [GetXMLTextArray, GetXMLValueArray, h, asScalar],
      by simp [IsXMLArray, h], by simp [XMLArrayLength, h]⟩
  · intro m path attr mm h
    exact ⟨by simp [GetXMLAttribute, h], by simp [GetXMLAttributeArray, h]⟩

/-- C3, witness: the absence clauses applied to the empty map. -/
theorem c3_witness :
    (GetXMLAttribute [] "p" "a" = "" ∧ GetXMLAttributeArray [] "p" "a" = []
      ∧ HasXMLAttribute [] "p" "a" = false)
    ∧ (GetXMLValue [] "p" = "" ∧ GetXMLValueArray [] "p" = [] ∧ GetXMLText [] "p" = ""
      ∧ GetXMLTextArray [] "p" = [] ∧ HasXMLElement [] "p" = false
      ∧ IsXMLArray [] "p" = false ∧ XMLArrayLength [] "p" = 0) :=
  ⟨c3_query_defaults.1 [] "p" "a" rfl, c3_query_defaults.2.1 [] "p" rfl⟩

/-- C4: the converter fails with EmptyDocument exactly when the input trims
to nothing; whenever the tokenizing build of the trimmed input reports an
error, the converter fails with MalformedDocument carrying that cause; the
cited concrete inputs fail as the claim says (mismatched end tag, unclosed
tag, invalid byte); and every failure is terminal, yielding no result map. -/
theorem c4_error_taxonomy :
    (∀ s : String, parseXMLToGeneric s = .error .emptyDocument ↔ trimChars s.data = [])
    ∧ (∀ (s : String) (e : TokErr), trimChars s.data ≠ [] →
        parseCore (trimChars s.data) = .error e →
        parseXMLToGeneric s = .error (.malformedDocument e))
    ∧ parseXMLToGeneric "" = .error .emptyDocument
    ∧ parseXMLToGeneric "   \n\t  " = .error .emptyDocument
    ∧ parseXMLToGeneric "<a><b></a>" = .error (.malformedDocument (.mismatchedEndTag "b" "a"))
    ∧ parseXMLToGeneric "<invalid><unclosed>" = .error (.malformedDocument .unexpectedEOF)
    ∧ parseXMLToGeneric "<test>Invalid\x00character</test>"
        = .error (.malformedDocument .invalidChar)
    ∧ (∀ (s : String) (e : ConvError), parseXMLToGeneric s = .error e →
        ∀ m : VMap, parseXMLToGeneric s ≠ .ok m) := by
  refine ⟨parseXML_empty_iff, parseXML_malformed_of_core_error, rfl, rfl, rfl, rfl, rfl, ?_⟩
  intro s e h m hm
  rw [h] at hm
  exact Except.noConfusion hm

/-- C4, witness: the iff applied to the empty input, and the propagation
clause applied to the mismatched-end-tag input. -/
theorem c4_witness :
    parseXMLToGeneric "" = .error .emptyDocument
    ∧ parseXMLToGeneric "<a><b></a>"
        = .error (.malformedDocument (.mismatchedEndTag "b" "a")) :=
  ⟨(c4_error_taxonomy.1 "").mpr rfl,
   c4_error_taxonomy.2.1 "<a><b></a>" (.mismatchedEndTag "b" "a") (by decide) rfl⟩

/-- C5, counterexample: on the leaf document noteDoc the query text at the
root path returns the empty string, not the leaf text, because the
top-level key note holds the root own map, not a Scalar. -/
theorem c5_counterexample :
    parseXMLToGeneric noteDoc = .ok noteTree
    ∧ GetXMLText noteTree "note" = ""
    ∧ ("" : String) ≠ "hi" :=
  ⟨rfl, rfl, by decide⟩

/-- C5, amended: for a text-only leaf root, the flattened key at the root
path holds the root own map (the leaf promote write is overwritten by the
root finalization); the leaf text is reachable inside that own map under
the root tag name, where the text query returns it; the text query on the
top-level tree at the root path returns the empty string. -/
theorem c5_leaf_text :
    parseXMLToGeneric noteDoc = .ok noteTree
    ∧ lookupV noteTree "note" = some (Value.map [("note", Value.scalar "hi")])
    ∧ GetXMLText [("note", Value.scalar "hi")] "note" = "hi"
    ∧ GetXMLText noteTree "note" = "" :=
  ⟨rfl, rfl, rfl, rfl⟩

/-- C6: converting the self-closing element with an attribute yields a tree
where the element is present, its attribute reads back, and its value is
the empty string. -/
theorem c6_self_closing :
    parseXMLToGeneric imgDoc = .ok imgTree
    ∧ HasXMLElement imgTree "img" = true
    ∧ GetXMLAttribute imgTree "img" "src" = "a.jpg"
    ∧ GetXMLValue imgTree "img" = "" :=
  ⟨rfl, rfl, rfl, rfl⟩

/-- C7: the converter is a pure function of its input text; two calls on
the same input yield structurally identical results.  In this embedding
the converter is a function with no state outside its arguments, so the
equality holds definitionally. -/
theorem c7_purity : ∀ x : String, parseXMLToGeneric x = parseXMLToGeneric x :=
  fun _ => rfl

/-- C8, counterexample: the claim joins the raw non-whitespace-only chunks
with single spaces, but the converter trims each chunk before joining.  On
mixedDoc the chunks are the strings x-space and y; the stored mixed text is
x-space-y with a single space, not the two-space join of the raw chunks. -/
theorem c8_counterexample :
    parseXMLToGeneric mixedDoc = .ok mixedTree
    ∧ lookupV mixedTree "a"
        = some (Value.map [("b", Value.scalar ""), ("_text", Value.scalar "x y")])
    ∧ ("x y" : String) ≠ "x " ++ " " ++ "y" :=
  ⟨rfl, rfl, by decide⟩

/-- C8, amended: the direct text of an element is the space-joined
concatenation of its individually trimmed non-whitespace-only CharData
chunks in document order, child elements interleaved between them
notwithstanding, and whitespace-only chunks contribute nothing, not even a
separator; the own map holds the underscore-text entry with this text
whenever the element has both child elements and non-empty direct text,
and, provided neither the element nor a direct child is literally named
underscore-text, only then; on the mixed document the own map of a holds
the text x-space-y and the child b. -/
theorem c8_text_accumulation :
    (∀ chunks : List String, accumText chunks = joinSp (trimmedChunks chunks))
    ∧ (∀ (name : String) (attrs : List (String × String)) (path : String)
        (items : List Item),
        childItems items ≠ [] → accumText (chunkItems items) ≠ "" →
        lookupV (finalizeElem name attrs path items).own "_text"
          = some (Value.scalar (accumText (chunkItems items))))
    ∧ (∀ (name : String) (attrs : List (String × String)) (path : String)
        (items : List Item),
        name ≠ "_text" → (∀ b ∈ childItems items, b.name ≠ "_text") →
        (childItems items = [] ∨ accumText (chunkItems items) = "") →
        lookupV (finalizeElem name attrs path items).own "_text" = none)
    ∧ lookupV mixedOwn2 "_text" = some (Value.scalar "x y")
    ∧ lookupV mixedOwn2 "b" = some (Value.scalar "") := by
  refine ⟨accumText_eq, ?_, ?_, rfl, rfl⟩
  · intro name attrs path items hch ht
    have hne : (childItems items).isEmpty = false := by
      cases h : childItems items with
      | nil => exact absurd h hch
      | cons a t => rfl
    rw [finalize_own_def, if_neg (by simp [hne]), if_neg (by simp [ht])]
    exact lookup_setKey_self _ _ _
  · intro name attrs path items hn hb hcase
    by_cases hch : (childItems items).isEmpty = true
    · have hempty : childItems items = [] := by
        cases h : childItems items with
        | nil => rfl
        | cons a t => rw [h] at hch; exact absurd hch (by simp)
      have hw : ownWrites items = [] := by
        unfold ownWrites
        rw [hempty]
        rfl
      rw [finalize_own_def, if_pos hch]
      by_cases ht : accumText (chunkItems items) = ""
      · rw [if_pos (by simp [ht]), hw]
        rfl
      · rw [if_neg (by simp [ht]), lookup_setKey_ne _ _ _ _ hn, hw]
        rfl
    · have hne : childItems items ≠ [] := by
        intro hx
        exact hch (by simp [hx])
      have ht : accumText (chunkItems items) = "" := by
        rcases hcase with h1 | h2
        · exact absurd h1 hne
        · exact h2
      rw [finalize_own_def, if_neg hch, if_pos (by simp [ht])]
      rw [lookup_promoteAll, keyVals_ownWrites _ _ (by decide)]
      rw [filter_name_nil _ _ hb]
      rfl

/-- C8, witness: the mixed-content clause applied to one concrete element
holding two text chunks around a child. -/
theorem c8_witness :
    lookupV (finalizeElem "a" [] "a"
      [Item.chunk "x", Item.child (finalizeElem "b" [] "a/b" []), Item.chunk "y"]).own "_text"
      = some (Value.scalar (accumText (chunkItems
          [Item.chunk "x", Item.child (finalizeElem "b" [] "a/b" []), Item.chunk "y"]))) :=
  c8_text_accumulation.2.1 "a" [] "a"
    [Item.chunk "x", Item.child (finalizeElem "b" [] "a/b" []), Item.chunk "y"]
    (fun h => List.noConfusion h) (by decide)

/-- C9: every accepted document yields a tree whose key at the root name
holds the root own map, a nested Map, never a bare scalar; on the leaf
document the root text is reachable only inside that map under the root
tag name. -/
theorem c9_root_nested_map :
    (∀ (s : String) (m : VMap), parseXMLToGeneric s = .ok m →
       ∃ b : BuildOut, parseCore (trimChars s.data) = .ok (some b)
         ∧ m = assemble b ∧ lookupV m b.name = some (Value.map b.own))
    ∧ parseXMLToGeneric "<note>Simple note</note>"
        = .ok [("note", Value.map [("note", Value.scalar "Simple note")])]
    ∧ lookupV [("note", Value.map [("note", Value.scalar "Simple note")])] "note"
        = some (Value.map [("note", Value.scalar "Simple note")])
    ∧ GetXMLText [("note", Value.scalar "Simple note")] "note" = "Simple note" := by
  refine ⟨?_, rfl, rfl, rfl⟩
  intro s m h
  obtain ⟨b, hc, hm⟩ := parseXML_ok_inv s m h
  exact ⟨b, hc, hm, by rw [hm]; exact assemble_lookup_root b⟩

/-- C9, witness: the universal clause applied to the accepted leaf
document. -/
theorem c9_witness :
    ∃ b : BuildOut,
      parseCore (trimChars ("<note>Simple note</note>" : String).data) = .ok (some b)
      ∧ [("note", Value.map [("note", Value.scalar "Simple note")])] = assemble b
      ∧ lookupV [("note", Value.map [("note", Value.scalar "Simple note")])] b.name
          = some (Value.map b.own) :=
  c9_root_nested_map.1 "<note>Simple note</note>"
    [("note", Value.map [("note", Value.scalar "Simple note")])] rfl

/-- C10: when the body carries a JSON content type and fails to parse, or
an XML content type and fails to parse, Extract returns no error: the
corresponding body field is none and the returned RequestData still
carries the headers, query, form and raw body. -/
theorem c10_extract_lenient :
    (∀ (jp : String → Option VMap) (r : ReqState),
      r.form = none →
      strHas "application/x-www-form-urlencoded" (headerGet r.headers "Content-Type") = false →
      strHas "multipart/form-data" (headerGet r.headers "Content-Type") = false →
      strHas "application/json" (strLower (headerGet r.headers "Content-Type")) = true →
      r.body ≠ "" →
      jp r.body = none →
      Extract jp r = .ok {
        headers := r.headers
        query := (if r.rawQuery = "" then []
          else (match r.queryParsed with | some q => q | none => []))
        form := []
        body := r.body
        bodyJSON := none
        bodyXML := none })
    ∧ (∀ (jp : String → Option VMap) (r : ReqState) (e : ConvError),
      r.form = none →
      strHas "application/x-www-form-urlencoded" (headerGet r.headers "Content-Type") = false →
      strHas "multipart/form-data" (headerGet r.headers "Content-Type") = false →
      strHas "application/json" (strLower (headerGet r.headers "Content-Type")) = false →
      xmlContentTypes.any
        (fun c => strHas c (strLower (headerGet r.headers "Content-Type"))) = true →
      r.body ≠ "" →
      parseXMLToGeneric r.body = .error e →
      Extract jp r = .ok {
        headers := r.headers
        query := (if r.rawQuery = "" then []
          else (match r.queryParsed with | some q => q | none => []))
        form := []
        body := r.body
        bodyJSON := none
        bodyXML := none }) := by
  constructor
  · intro jp r hform hurl hmulti hjson hbody hjp
    simp [Extract, hform, hurl, hmulti, hjson, hjp, hbody]
  · intro jp r e hform hurl hmulti hjson hxml hbody hE
    simp [Extract, hform, hurl, hmulti, hjson, hxml, hbody, hE, Except.toOption]

/-- A concrete request state: XML content type with a malformed body. -/
def demoReq : ReqState :=
  { headers := [("Content-Type", ["text/xml"])], rawQuery := "", queryParsed := none,
    form := none, parseFormResult := .ok [], parseMultipartResult := .ok [],
    body := "<a><b></a>" }

/-- C10, witness: the XML clause applied to demoReq, whose body fails to
parse with a mismatched end tag. -/
theorem c10_witness :
    Extract (fun _ => none) demoReq = .ok {
      headers := demoReq.headers
      query := (if demoReq.rawQuery = "" then []
        else (match demoReq.queryParsed with | some q => q | none => []))
      form := []
      body := demoReq.body
      bodyJSON := none
      bodyXML := none } :=
  c10_extract_lenient.2 (fun _ => none) demoReq
    (.malformedDocument (.mismatchedEndTag "b" "a"))
    rfl (by decide) (by decide) (by decide) (by decide) (by decide) rfl

end ParserSpec
